import Mathlib

/-!
Verification of the dysk control-plane client (`pkg/client/client.go`)
against its natural-language specification.

Shallow embedding conventions:
- Go strings and byte buffers are lists of characters (`GoStr`); the wire
  protocol splits on the single byte `'\n'`, so character-level splitting
  is faithful for every property stated here.
- Go 64-bit machine integers are `Nat`/`Int` with explicit reduction
  modulo `2 ^ 64` where overflow matters (`wrap64`, `toUint64`, `toInt64`);
  Go's `/` on signed integers truncates toward zero (`Int.tdiv`).
- Fallible Go code returns `Option`/`Except`; Go runtime panics
  (out-of-range slice or index, negative `make`) are modelled by a
  distinguished result (`none` / `.panics`).
- External collaborators (kernel driver, object store, DNS) appear as
  oracle parameters; the calls made to them appear as explicit events.
-/

set_option maxHeartbeats 1000000
set_option maxRecDepth 4000

/-- Go strings are byte sequences, modelled as lists of characters. -/
abbrev GoStr := List Char

/-- IOCTL command code for mount, from the source constants. -/
def IOCTLMOUNTDYSK : Nat := 9901

/-- IOCTL command code for unmount. -/
def IOCTLUNMOUNTDYSK : Nat := 9902

/-- IOCTL command code for get. -/
def IOCTGETDYSK : Nat := 9903

/-- IOCTL command code for list. -/
def IOCTLISTDYYSKS : Nat := 9904

/-- All in/out commands expect 2048-byte buffers. -/
def IOCTL_IN_OUT_MAX : Nat := 2048

/-- Modelled from the spec: the fixed disk-image header size constant of
the external go-vhd library (`vhd.VHD_HEADER_SIZE`), 512 bytes; the spec
describes it as the fixed header size used in every size computation. -/
def VHD_HEADER_SIZE : Nat := 512

/-- Modelled from the spec: the ReadOnly dysk type string; the descriptor
type declarations are not under `src/`, and the validator's error message
("Must be R or RW") fixes the two values. -/
def ReadOnly : GoStr := "R".toList

/-- Modelled from the spec: the ReadWrite dysk type string. -/
def ReadWrite : GoStr := "RW".toList

/-- Modelled from the spec: the Disk Descriptor record (the repository's
type declaration file is not under `src/`; the fields and their kinds are
fixed by the spec's data model and by every use in `client.go`). The
source field `Type` is spelled `type` because `Type` is reserved in Lean.
`sectorCount` is the Go `uint64`; `Major`, `Minor`, `SizeGB` are the Go
`int` (64-bit). -/
structure Dysk where
  type : GoStr
  Name : GoStr
  sectorCount : Nat
  AccountName : GoStr
  AccountKey : GoStr
  Path : GoStr
  host : GoStr
  ip : GoStr
  LeaseId : GoStr
  Major : Int
  Minor : Int
  Vhd : Bool
  SizeGB : Int
  deriving DecidableEq

/-- Reinterpret an integer as a signed 64-bit value (two's-complement wrap). -/
def wrap64 (x : Int) : Int := (x + 2 ^ 63) % 2 ^ 64 - 2 ^ 63

/-- Go conversion to `uint64`: reduce modulo `2 ^ 64`. -/
def toUint64 (x : Int) : Nat := (x % 2 ^ 64).toNat

/-- Go conversion from `uint64` to `int`: reinterpret the bits as signed. -/
def toInt64 (n : Nat) : Int := wrap64 n

/-- Digit accumulator of Go `strconv` decimal parsing: fails on any
non-digit character. -/
def parseDigits (acc : Nat) : GoStr → Option Nat
  | [] => some acc
  | c :: rest =>
    if 48 ≤ c.toNat ∧ c.toNat ≤ 57 then parseDigits (10 * acc + (c.toNat - 48)) rest
    else none

/-- A non-empty all-digit decimal numeral; the empty string is a syntax
error. -/
def parseDecimal : GoStr → Option Nat
  | [] => none
  | c :: rest => parseDigits 0 (c :: rest)

/-- Go `strconv.ParseUint(s, 10, 64)`: the returned value and the ok flag.
On a syntax error Go returns 0, on a range error the maximum `uint64`. -/
def goParseUint (s : GoStr) : Nat × Bool :=
  match parseDecimal s with
  | none => (0, false)
  | some n => if n ≤ 2 ^ 64 - 1 then (n, true) else (2 ^ 64 - 1, false)

/-- Magnitude step of Go `strconv.ParseInt` once the sign is stripped:
on a range error Go returns the clamped extremum of `int64`. -/
def goParseIntMag (neg : Bool) (s : GoStr) : Int × Bool :=
  match parseDecimal s with
  | none => (0, false)
  | some n =>
    if neg then
      if n ≤ 2 ^ 63 then (-(n : Int), true) else (-(2 ^ 63), false)
    else
      if n ≤ 2 ^ 63 - 1 then ((n : Int), true) else (2 ^ 63 - 1, false)

/-- Go `strconv.ParseInt(s, 10, 64)`: optional sign, then digits. -/
def goParseInt (s : GoStr) : Int × Bool :=
  match s with
  | [] => (0, false)
  | c :: rest =>
    if c = '+' then goParseIntMag false rest
    else if c = '-' then goParseIntMag true rest
    else goParseIntMag false (c :: rest)

/-- The decimal digits of `n` as written by Go's `%d`, empty for 0; the
fuel argument (any bound with `n < fuel`) keeps the recursion structural. -/
def natToDecAux (fuel : Nat) (n : Nat) : GoStr :=
  match fuel with
  | 0 => []
  | fuel + 1 =>
    if n = 0 then [] else natToDecAux fuel (n / 10) ++ [Char.ofNat (48 + n % 10)]

/-- Go `fmt` `%d` of an unsigned value. -/
def natToDec (n : Nat) : GoStr := if n = 0 then ['0'] else natToDecAux (n + 1) n

/-- Go `fmt` `%d` of a signed value. -/
def intToDec (i : Int) : GoStr :=
  if i < 0 then '-' :: natToDec i.natAbs else natToDec i.toNat

/-- Go `strings.Split(s, "\n")`: the segments between newlines; never
empty, one segment more than there are newlines. -/
def splitOnNl : GoStr → List GoStr
  | [] => [[]]
  | c :: rest =>
    if c = '\n' then [] :: splitOnNl rest
    else
      match splitOnNl rest with
      | [] => [[c]]
      | seg :: segs => (c :: seg) :: segs

/-- Append a trailing newline to every field, exactly as the encoder's
format string `"%s\n%s\n%d\n…"` does. -/
def joinNl : List GoStr → GoStr
  | [] => []
  | f :: fs => f ++ '\n' :: joinNl fs

/-- `dysk2string`: the newline-terminated positional request encoding
(type, name, sectorCount, accountName, accountKey, path, host, ip,
leaseId, vhd flag as 0/1). -/
def dysk2string (d : Dysk) : GoStr :=
  joinNl [d.type, d.Name, natToDec d.sectorCount, d.AccountName, d.AccountKey,
          d.Path, d.host, d.ip, d.LeaseId, if d.Vhd then ['1'] else ['0']]

/-- The driver's response layout for a descriptor: the `dysk2string`
fields with the driver-assigned major and minor inserted between leaseId
and the vhd flag — the positional layout `string2dysk` actually reads.
Stated from the spec's words for the amended round-trip claim. -/
def dysk2stringFull (d : Dysk) : GoStr :=
  joinNl [d.type, d.Name, natToDec d.sectorCount, d.AccountName, d.AccountKey,
          d.Path, d.host, d.ip, d.LeaseId, intToDec d.Major, intToDec d.Minor,
          if d.Vhd then ['1'] else ['0']]

/-- Outcome of `string2dysk`: a decoded descriptor, a returned parse
error, or a Go index-out-of-range runtime panic. -/
inductive DecodeResult
  | ok (d : Dysk)
  | errParse
  | panics
  deriving DecidableEq

/-- `string2dysk`: split on newline and read the positional fields in
source evaluation order — sectorCount at index 2 (parse error dropped),
major at 9 and minor at 10 (parse errors fatal), the vhd flag at 11
(parse error dropped, value compared with 1) — then build the descriptor
from indices 0–8. Accessing an index beyond the segment list is a Go
runtime panic. `SizeGB` is left at the Go zero value. -/
def string2dysk (s : GoStr) : DecodeResult :=
  let split := splitOnNl s
  if h2 : 2 < split.length then
    let sectorCount := (goParseUint (split.get ⟨2, h2⟩)).1
    if h9 : 9 < split.length then
      let pmaj := goParseInt (split.get ⟨9, h9⟩)
      if pmaj.2 then
        if h10 : 10 < split.length then
          let pmin := goParseInt (split.get ⟨10, h10⟩)
          if pmin.2 then
            if h11 : 11 < split.length then
              let pvhd := goParseInt (split.get ⟨11, h11⟩)
              .ok { type := split.get ⟨0, by omega⟩
                    Name := split.get ⟨1, by omega⟩
                    sectorCount := sectorCount
                    AccountName := split.get ⟨3, by omega⟩
                    AccountKey := split.get ⟨4, by omega⟩
                    Path := split.get ⟨5, by omega⟩
                    host := split.get ⟨6, by omega⟩
                    ip := split.get ⟨7, by omega⟩
                    LeaseId := split.get ⟨8, by omega⟩
                    Major := pmaj.1
                    Minor := pmin.1
                    Vhd := pvhd.1 == 1
                    SizeGB := 0 }
            else .panics
          else .errParse
        else .panics
      else .errParse
    else .panics
  else .panics

/-- `bufferize`: the payload followed by a zero pad to exactly 2048
bytes; a payload longer than the buffer makes Go's `make` length
negative, a runtime panic, modelled as `none`. -/
def bufferize (s : GoStr) : Option GoStr :=
  if s.length ≤ IOCTL_IN_OUT_MAX then
    some (s ++ List.replicate (IOCTL_IN_OUT_MAX - s.length) (Char.ofNat 0))
  else none

/-- The driver response split into the failure flag and the payload. -/
structure ModuleResponse where
  is_error : Bool
  response : GoStr
  deriving DecidableEq

/-- Index of the first newline, as `strings.Index(s, "\n")` (with `none`
for Go's -1). -/
def firstNlIdx : GoStr → Option Nat
  | [] => none
  | c :: rest => if c = '\n' then some 0 else (firstNlIdx rest).map (· + 1)

/-- `parseResponse`: the text before the first newline is the status
token (exactly "ERR" marks failure), everything after it is the payload;
with no newline present the source slices `s[:-1]`, a runtime panic,
modelled as `none`. -/
def parseResponse (b : GoStr) : Option ModuleResponse :=
  match firstNlIdx b with
  | none => none
  | some i => some { is_error := b.take i == "ERR".toList, response := b.drop (i + 1) }

/-- Decidable equality for `Except` results, so that concrete validator
outcomes can be evaluated by `decide`. -/
instance {ε α : Type} [DecidableEq ε] [DecidableEq α] : DecidableEq (Except ε α) := fun x y =>
  match x, y with
  | .ok a, .ok b =>
    if h : a = b then isTrue (congrArg Except.ok h) else isFalse fun hh => h (Except.ok.inj hh)
  | .error a, .error b =>
    if h : a = b then isTrue (congrArg Except.error h)
    else isFalse fun hh => h (Except.error.inj hh)
  | .ok _, .error _ => isFalse fun hh => Except.noConfusion hh
  | .error _, .ok _ => isFalse fun hh => Except.noConfusion hh

/-- The field-level validation errors of `validateDysk`, in source order.
(No account-key/base64 error appears: the source computes that error and
discards it.) -/
inductive ValErr
  | badType
  | badNameLen
  | badNameChars
  | badSector
  | badAccountName
  | badAccountKeyLen
  | badPath
  | badHost
  | badLease
  deriving DecidableEq

/-- Modelled from the spec: validity of a string for Go's
`base64.StdEncoding.DecodeString` (an external library): after discarding
CR and LF, four-character groups over the standard alphabet, the final
group allowing one or two trailing padding characters. Used only to state
that a claim's inputs are indeed not valid base64. -/
def b64Char (c : Char) : Bool :=
  decide (('A' ≤ c ∧ c ≤ 'Z') ∨ ('a' ≤ c ∧ c ≤ 'z') ∨ ('0' ≤ c ∧ c ≤ '9') ∨ c = '+' ∨ c = '/')

/-- Four-character base64 groups with padding allowed only at the end. -/
def b64Groups : GoStr → Bool
  | [] => true
  | a :: b :: c :: d :: rest =>
    b64Char a && b64Char b &&
    (if rest.isEmpty then
       (b64Char c && b64Char d) || (b64Char c && d == '=') || (c == '=' && d == '=')
     else b64Char c && b64Char d && b64Groups rest)
  | _ => false

/-- Validity for Go std base64 decoding (newlines are skipped). -/
def base64Valid (s : GoStr) : Bool :=
  b64Groups (s.filter fun c => c != '\r' && c != '\n')

/-- The pure field checks of `validateDysk`, in source order, including
the host defaulting. The base64 decode of the account key is performed by
the source between the key-length and path checks, but its error value is
discarded (the `fmt.Errorf` result is not returned), so no key-error exit
exists. A non-empty host of at most 512 characters does not satisfy the
host guard, so the `else` branch overwrites it with the derived default. -/
def validateFields (d : Dysk) : Except ValErr Dysk :=
  if d.type.length = 0 ∨ (d.type ≠ ReadOnly ∧ d.type ≠ ReadWrite) then .error .badType
  else if d.Name.length = 0 ∨ 32 < d.Name.length then .error .badNameLen
  else if '/' ∈ d.Name ∨ '\\' ∈ d.Name ∨ '.' ∈ d.Name then .error .badNameChars
  else if d.sectorCount = 0 then .error .badSector
  else if d.AccountName.length = 0 ∨ 256 < d.AccountName.length then .error .badAccountName
  else if d.AccountKey.length = 0 ∨ 128 < d.AccountKey.length then .error .badAccountKeyLen
  else if d.Path.length = 0 ∨ 1024 < d.Path.length then .error .badPath
  else if 0 < d.host.length ∧ 512 < d.host.length then .error .badHost
  else
    let d1 := { d with host := d.AccountName ++ ".blob.core.windows.net".toList }
    if d1.LeaseId.length = 0 ∨ 64 < d1.LeaseId.length then .error .badLease
    else .ok d1

/-- The sector-count computation of `pre_mount`: bytes from `SizeGB` in
Go `int` arithmetic, minus the header size when image-format, divided by
512 with Go's truncating division, converted to `uint64`. -/
def pre_mount_sizing (d : Dysk) : Dysk :=
  let byteSize := wrap64 (d.SizeGB * (1024 * 1024 * 1024))
  let byteSize2 := if d.Vhd then wrap64 (byteSize - (VHD_HEADER_SIZE : Int)) else byteSize
  { d with sectorCount := toUint64 (Int.tdiv byteSize2 512) }

/-- `post_get`: bytes from the sector count in `uint64` arithmetic, plus
the header size when image-format, divided by 1024³, converted to Go
`int`. -/
def post_get (d : Dysk) : Dysk :=
  let byteSize := d.sectorCount * 512 % 2 ^ 64
  let byteSize2 := if d.Vhd then (byteSize + VHD_HEADER_SIZE) % 2 ^ 64 else byteSize
  { d with SizeGB := toInt64 (byteSize2 / (1024 * 1024 * 1024)) }

/-- The names the `List` loop hands to `get`: every split segment of the
payload except the final one (the loop breaks at the last index). -/
def listProcessNames (payload : GoStr) : List GoStr :=
  (splitOnNl payload).take ((splitOnNl payload).length - 1)

/-- The `List` loop body over a `get` oracle: query each name in order,
normalize the result with `post_get`, accumulate; the first failure
aborts the whole loop with that error and no partial result. -/
def listAccum (get : GoStr → Except GoStr Dysk) : List GoStr → Except GoStr (List Dysk)
  | [] => .ok []
  | n :: rest =>
    match get n with
    | .error e => .error e
    | .ok d =>
      match listAccum get rest with
      | .error e => .error e
      | .ok ds => .ok (post_get d :: ds)

/-- `List` applied to a successful driver payload. -/
def listRun (get : GoStr → Except GoStr Dysk) (payload : GoStr) : Except GoStr (List Dysk) :=
  listAccum get (listProcessNames payload)

/-- The sequence of names actually queried via `get`, in order; the loop
stops right after the first failing query. -/
def listCalls (get : GoStr → Except GoStr Dysk) : List GoStr → List GoStr
  | [] => []
  | n :: rest =>
    match get n with
    | .error _ => [n]
    | .ok _ => n :: listCalls get rest

/-- Observable external actions of the client: control-channel
operations, object-store calls and DNS lookups, in the order the source
issues them. -/
inductive Ev
  | openChannel
  | closeChannel
  | ioctl (code : Nat)
  | netCreateContainer (c : GoStr)
  | netPutPageBlob (name : GoStr) (sizeBytes : Nat)
  | netWriteRange (start length : Nat)
  | netAcquireLease
  | netGetProps
  | netLookupHost (h : GoStr)
  | netLease
  deriving DecidableEq

/-- The object-store calls `CreatePageBlob` issues on its success path:
ensure the container, create the page blob of `sizeGB` gibibytes, write
the fixed VHD header over the final 512 bytes, acquire the lease. The
`is_vhd` argument is accepted but never read by the source body, so the
header write is unconditional. -/
def createPageBlobOps (sizeGB : Nat) (container pageBlobName : GoStr) (is_vhd : Bool) :
    List Ev :=
  let sizeBytes := sizeGB * (1024 * 1024 * 1024) % 2 ^ 64
  [ .netCreateContainer container,
    .netPutPageBlob pageBlobName sizeBytes,
    .netWriteRange ((sizeBytes + 2 ^ 64 - VHD_HEADER_SIZE) % 2 ^ 64) VHD_HEADER_SIZE,
    .netAcquireLease ]

/-- External collaborators of `Mount`: the client's account identity, the
store-reported size in GB (`none` models a failed GetProperties, whose
error the source drops), the DNS answer, the lease-validation verdict,
a channel failure flag for the ioctl, and the driver's in-place transform
of the 2048-byte buffer. -/
structure ClientEnv where
  acctName : GoStr
  acctKey : GoStr
  storeSizeGB : Option Int
  lookupIp : Option GoStr
  leaseOk : Bool
  ioctlFails : Bool
  driver : GoStr → GoStr

/-- Outcome of a `Mount` call. -/
inductive MountOutcome
  | panics
  | errValidation (e : ValErr)
  | errLookup
  | errLease
  | errChannel
  | errDriver (msg : GoStr)
  | errDecode
  | ok (major minor : Int)
  deriving DecidableEq

/-- The descriptor enrichment `pre_mount` performs before validation:
stamp the client credentials, overwrite `SizeGB` from the store when
GetProperties succeeds (the source drops its error), then compute the
sector count. -/
def mountEnrich (env : ClientEnv) (d : Dysk) : Dysk :=
  let d1 := { d with AccountName := env.acctName, AccountKey := env.acctKey }
  let d2 := match env.storeSizeGB with
            | some v => { d1 with SizeGB := v }
            | none => d1
  pre_mount_sizing d2

/-- `validateDysk` beyond the pure field checks: resolve the host (fatal
on failure, setting `ip` on success), then validate the lease against the
object store. Returns the events issued and the verdict. -/
def validateDyskM (env : ClientEnv) (d : Dysk) : List Ev × Except MountOutcome Dysk :=
  match validateFields d with
  | .error e => ([], .error (.errValidation e))
  | .ok d1 =>
    match env.lookupIp with
    | none => ([.netLookupHost d1.host], .error .errLookup)
    | some addr =>
      if env.leaseOk then
        ([.netLookupHost d1.host, .netLease], .ok { d1 with ip := addr })
      else
        ([.netLookupHost d1.host, .netLease], .error .errLease)

/-- `Mount`: open the control channel, fetch the blob size (pre_mount's
unconditional GetProperties call), enrich and validate the descriptor,
encode it, build the buffer, issue the MOUNT ioctl, parse the response
and decode the driver-assigned major/minor; the deferred channel close
ends every trace. -/
def MountM (env : ClientEnv) (d : Dysk) : List Ev × MountOutcome :=
  let d3 := mountEnrich env d
  let pre : List Ev := [.openChannel, .netGetProps]
  match validateDyskM env d3 with
  | (evs, .error out) => (pre ++ evs ++ [.closeChannel], out)
  | (evs, .ok d4) =>
    match bufferize (dysk2string d4) with
    | none => (pre ++ evs ++ [.closeChannel], .panics)
    | some buf =>
      if env.ioctlFails then
        (pre ++ evs ++ [.ioctl IOCTLMOUNTDYSK, .closeChannel], .errChannel)
      else
        match parseResponse (env.driver buf) with
        | none => (pre ++ evs ++ [.ioctl IOCTLMOUNTDYSK, .closeChannel], .panics)
        | some res =>
          if res.is_error then
            (pre ++ evs ++ [.ioctl IOCTLMOUNTDYSK, .closeChannel], .errDriver res.response)
          else
            match string2dysk res.response with
            | .panics => (pre ++ evs ++ [.ioctl IOCTLMOUNTDYSK, .closeChannel], .panics)
            | .errParse => (pre ++ evs ++ [.ioctl IOCTLMOUNTDYSK, .closeChannel], .errDecode)
            | .ok nd =>
              (pre ++ evs ++ [.ioctl IOCTLMOUNTDYSK, .closeChannel], .ok nd.Major nd.Minor)


/-- A concrete well-formed ReadWrite descriptor (the spec's 1 GB end-to-end
example: sectorCount 2097152), used for concrete evaluations. -/
def dRef : Dysk :=
  { type := "RW".toList, Name := "disk1".toList, sectorCount := 2097152,
    AccountName := "acct".toList, AccountKey := "a2V5".toList,
    Path := "/cont/blob".toList, host := [], ip := [],
    LeaseId := "lease1".toList, Major := 0, Minor := 0, Vhd := false, SizeGB := 1 }

/-- A Get oracle that succeeds on every name. -/
def getAllOk : GoStr → Except GoStr Dysk := fun _ => .ok dRef

/-- A Get oracle that fails on the name diskB and succeeds elsewhere. -/
def getFailsOnB : GoStr → Except GoStr Dysk := fun n =>
  if n = "diskB".toList then .error ("boom".toList) else .ok dRef

/-- A concrete environment whose collaborators all succeed and whose
driver echoes the request buffer. -/
def envRef : ClientEnv :=
  { acctName := "acct".toList, acctKey := "a2V5".toList, storeSizeGB := some 1,
    lookupIp := some ("1.2.3.4".toList), leaseOk := true, ioctlFails := false,
    driver := fun b => b }

/-- The validator checks preceding the host rule (source order) all
pass; used to state the amended host-handling claim. -/
def preHostChecksPass (d : Dysk) : Prop :=
  ¬(d.type.length = 0 ∨ (d.type ≠ ReadOnly ∧ d.type ≠ ReadWrite)) ∧
  ¬(d.Name.length = 0 ∨ 32 < d.Name.length) ∧
  ¬('/' ∈ d.Name ∨ '\\' ∈ d.Name ∨ '.' ∈ d.Name) ∧
  ¬(d.sectorCount = 0) ∧
  ¬(d.AccountName.length = 0 ∨ 256 < d.AccountName.length) ∧
  ¬(d.AccountKey.length = 0 ∨ 128 < d.AccountKey.length) ∧
  ¬(d.Path.length = 0 ∨ 1024 < d.Path.length)

/-- The spec's declared per-field length bounds on a descriptor. -/
def inLenBounds (d : Dysk) : Prop :=
  1 ≤ d.Name.length ∧ d.Name.length ≤ 32 ∧
  1 ≤ d.AccountName.length ∧ d.AccountName.length ≤ 256 ∧
  1 ≤ d.AccountKey.length ∧ d.AccountKey.length ≤ 128 ∧
  1 ≤ d.Path.length ∧ d.Path.length ≤ 1024 ∧
  d.host.length ≤ 512 ∧
  1 ≤ d.LeaseId.length ∧ d.LeaseId.length ≤ 64

/-- No wire-carried string field contains a newline, and the
machine-integer fields are within their Go types' ranges. -/
def wireSafe (d : Dysk) : Prop :=
  '\n' ∉ d.type ∧ '\n' ∉ d.Name ∧ '\n' ∉ d.AccountName ∧ '\n' ∉ d.AccountKey ∧
  '\n' ∉ d.Path ∧ '\n' ∉ d.host ∧ '\n' ∉ d.ip ∧ '\n' ∉ d.LeaseId ∧
  d.sectorCount < 2 ^ 64 ∧
  -(2 ^ 63) ≤ d.Major ∧ d.Major < 2 ^ 63 ∧ -(2 ^ 63) ≤ d.Minor ∧ d.Minor < 2 ^ 63

/-- Decidability of the staged-validator predicate, for concrete
evaluation. -/
instance (d : Dysk) : Decidable (preHostChecksPass d) := by
  unfold preHostChecksPass; exact inferInstance

/-- Decidability of the length-bounds predicate. -/
instance (d : Dysk) : Decidable (inLenBounds d) := by
  unfold inLenBounds; exact inferInstance

/-- Decidability of the wire-safety predicate. -/
instance (d : Dysk) : Decidable (wireSafe d) := by
  unfold wireSafe; exact inferInstance

/-- The reference descriptor with an invalid name (path separator). -/
def dBadName : Dysk := { dRef with Name := "a/b".toList }

/-- The reference descriptor with a caller-supplied short host. -/
def dHostSupplied : Dysk := { dRef with host := "h1".toList }

/-- The reference descriptor with a caller-supplied 513-character host. -/
def dHostLong : Dysk := { dRef with host := List.replicate 513 'h' }

/-!  Helper lemmas: decimal printing and parsing round-trips, two's
complement wrapping, and newline splitting of joined fields.  -/

theorem wrap64_emod (x : Int) : wrap64 x % 2 ^ 64 = x % 2 ^ 64 := by
  unfold wrap64; omega

theorem wrap64_bounds (x : Int) : -(2 ^ 63) ≤ wrap64 x ∧ wrap64 x < 2 ^ 63 := by
  unfold wrap64; omega

theorem tdiv_mul_cancel_of_dvd {a b : Int} (hb : b ≠ 0) (h : b ∣ a) :
    Int.tdiv a b * b = a := by
  obtain ⟨k, rfl⟩ := h
  rw [Int.mul_tdiv_cancel_left _ hb, Int.mul_comm]

theorem parseDigits_append (acc : Nat) (xs ys : GoStr) :
    parseDigits acc (xs ++ ys) = (parseDigits acc xs).bind fun m => parseDigits m ys := by
  induction xs generalizing acc with
  | nil => simp [parseDigits]
  | cons c rest ih =>
    by_cases h : 48 ≤ c.toNat ∧ c.toNat ≤ 57
    · simp only [List.cons_append, parseDigits, if_pos h]; exact ih _
    · simp [parseDigits, if_neg h]

theorem toNat_ofNat_digit (d : Nat) (h : d < 10) :
    (Char.ofNat (48 + d)).toNat = 48 + d := by
  interval_cases d <;> decide

theorem natToDecAux_digits (fuel : Nat) :
    ∀ n, ∀ c ∈ natToDecAux fuel n, 48 ≤ c.toNat ∧ c.toNat ≤ 57 := by
  induction fuel with
  | zero => intro n c hc; simp [natToDecAux] at hc
  | succ fuel ih =>
    intro n c hc
    by_cases h : n = 0
    · simp [natToDecAux, h] at hc
    · simp only [natToDecAux, if_neg h, List.mem_append, List.mem_singleton] at hc
      rcases hc with hc | hc
      · exact ih _ c hc
      · subst hc
        have h10 : n % 10 < 10 := Nat.mod_lt _ (by decide)
        rw [toNat_ofNat_digit _ h10]; omega

theorem parseDigits_natToDecAux (fuel : Nat) :
    ∀ n acc, n < fuel →
      parseDigits acc (natToDecAux fuel n) =
        some (acc * 10 ^ (natToDecAux fuel n).length + n) := by
  induction fuel with
  | zero => intro n acc h; omega
  | succ fuel ih =>
    intro n acc h
    by_cases h0 : n = 0
    · subst h0; simp [natToDecAux, parseDigits]
    · have hdivlt : n / 10 < fuel := by omega
      have h10 : n % 10 < 10 := Nat.mod_lt _ (by decide)
      have hcn : (Char.ofNat (48 + n % 10)).toNat = 48 + n % 10 := toNat_ofNat_digit _ h10
      simp only [natToDecAux, if_neg h0]
      generalize hc : Char.ofNat (48 + n % 10) = c
      rw [hc] at hcn
      rw [parseDigits_append, ih _ acc hdivlt]
      simp only [Option.some_bind, parseDigits, hcn, List.length_append,
        List.length_cons, List.length_nil]
      rw [if_pos (by omega)]
      rw [pow_succ, ← mul_assoc]
      congr 1
      generalize acc * 10 ^ (natToDecAux fuel (n / 10)).length = A
      omega

theorem natToDecAux_ne_nil {fuel n : Nat} (h0 : n ≠ 0) (h : n < fuel) :
    natToDecAux fuel n ≠ [] := by
  cases fuel with
  | zero => omega
  | succ fuel => simp [natToDecAux, if_neg h0]

theorem parseDecimal_natToDec (n : Nat) : parseDecimal (natToDec n) = some n := by
  by_cases h0 : n = 0
  · subst h0; decide
  · have hne := natToDecAux_ne_nil h0 (Nat.lt_succ_self n)
    obtain ⟨c, rest, hcr⟩ := List.exists_cons_of_ne_nil hne
    have hdec : natToDec n = c :: rest := by rw [natToDec, if_neg h0, hcr]
    rw [hdec]
    show parseDigits 0 (c :: rest) = some n
    rw [← hcr, parseDigits_natToDecAux (n + 1) n 0 (Nat.lt_succ_self n)]
    simp

theorem natToDec_digits (n : Nat) : ∀ c ∈ natToDec n, 48 ≤ c.toNat ∧ c.toNat ≤ 57 := by
  unfold natToDec
  by_cases h : n = 0
  · rw [if_pos h]
    intro c hc
    simp only [List.mem_singleton] at hc
    subst hc; decide
  · rw [if_neg h]
    exact natToDecAux_digits _ _

theorem natToDec_ne_nil (n : Nat) : natToDec n ≠ [] := by
  unfold natToDec
  by_cases h : n = 0
  · simp [h]
  · rw [if_neg h]
    exact natToDecAux_ne_nil h (Nat.lt_succ_self n)

theorem not_nl_natToDec (n : Nat) : '\n' ∉ natToDec n := by
  intro hmem
  have hd := natToDec_digits n _ hmem
  have : ('\n').toNat = 10 := rfl
  omega

theorem not_nl_intToDec (i : Int) : '\n' ∉ intToDec i := by
  unfold intToDec
  by_cases h : i < 0
  · rw [if_pos h]
    intro hmem
    rcases List.mem_cons.mp hmem with hc | hc
    · exact absurd hc (by decide)
    · exact not_nl_natToDec _ hc
  · rw [if_neg h]
    exact not_nl_natToDec _

theorem goParseUint_natToDec {n : Nat} (h : n < 2 ^ 64) :
    goParseUint (natToDec n) = (n, true) := by
  unfold goParseUint
  rw [parseDecimal_natToDec]
  simp only []
  rw [if_pos (by omega)]

theorem goParseInt_natToDec {n : Nat} (h : n ≤ 2 ^ 63 - 1) :
    goParseInt (natToDec n) = ((n : Int), true) := by
  obtain ⟨c, rest, hcr⟩ := List.exists_cons_of_ne_nil (natToDec_ne_nil n)
  have hdig : 48 ≤ c.toNat ∧ c.toNat ≤ 57 :=
    natToDec_digits n c (hcr ▸ List.mem_cons_self c rest)
  have hcp : c ≠ '+' := by
    intro he; subst he; revert hdig; decide
  have hcm : c ≠ '-' := by
    intro he; subst he; revert hdig; decide
  rw [hcr]
  simp only [goParseInt]
  rw [if_neg hcp, if_neg hcm]
  unfold goParseIntMag
  rw [← hcr, parseDecimal_natToDec]
  simp only [Bool.false_eq_true, if_false]
  rw [if_pos (by omega)]

theorem goParseInt_intToDec {i : Int} (h1 : -(2 ^ 63) ≤ i) (h2 : i < 2 ^ 63) :
    goParseInt (intToDec i) = (i, true) := by
  unfold intToDec
  by_cases hneg : i < 0
  · rw [if_pos hneg]
    simp only [goParseInt]
    rw [if_neg (by decide : ¬('-' = '+'))]
    rw [if_pos trivial]
    unfold goParseIntMag
    rw [parseDecimal_natToDec]
    simp only [if_true]
    rw [if_pos (by omega : i.natAbs ≤ 2 ^ 63)]
    have habs : (i.natAbs : Int) = -i := by omega
    rw [habs, Int.neg_neg]
  · rw [if_neg hneg]
    rw [goParseInt_natToDec (by omega : i.toNat ≤ 2 ^ 63 - 1)]
    have htn : (i.toNat : Int) = i := by omega
    rw [htn]

theorem splitOnNl_append (xs rest : GoStr) (h : '\n' ∉ xs) :
    splitOnNl (xs ++ '\n' :: rest) = xs :: splitOnNl rest := by
  induction xs with
  | nil => simp [splitOnNl]
  | cons c xs ih =>
    have hc : c ≠ '\n' := by
      intro he; exact h (he ▸ List.mem_cons_self c xs)
    have hxs : '\n' ∉ xs := fun hm => h (List.mem_cons_of_mem _ hm)
    simp only [List.cons_append, splitOnNl, if_neg hc, List.append_eq]
    rw [ih hxs]

theorem splitOnNl_joinNl (fs : List GoStr) (h : ∀ f ∈ fs, '\n' ∉ f) :
    splitOnNl (joinNl fs) = fs ++ [[]] := by
  induction fs with
  | nil => simp [joinNl, splitOnNl]
  | cons f fs ih =>
    simp only [joinNl]
    rw [splitOnNl_append f _ (h f (List.mem_cons_self f fs))]
    rw [ih fun g hg => h g (List.mem_cons_of_mem _ hg)]
    simp

theorem take_takeWhile_length (p : Char → Bool) (b : GoStr) :
    b.take (b.takeWhile p).length = b.takeWhile p := by
  induction b with
  | nil => rfl
  | cons c rest ih =>
    by_cases hp : p c
    · simp only [List.takeWhile_cons_of_pos hp, List.length_cons, List.take_succ_cons, ih]
    · simp [List.takeWhile_cons_of_neg hp]

theorem drop_takeWhile_length (p : Char → Bool) (b : GoStr) :
    b.drop (b.takeWhile p).length = b.dropWhile p := by
  induction b with
  | nil => rfl
  | cons c rest ih =>
    by_cases hp : p c
    · simp only [List.takeWhile_cons_of_pos hp, List.dropWhile_cons_of_pos hp,
        List.length_cons, List.drop_succ_cons, ih]
    · simp [List.takeWhile_cons_of_neg hp, List.dropWhile_cons_of_neg hp]

theorem firstNlIdx_of_not_mem {b : GoStr} (h : '\n' ∉ b) : firstNlIdx b = none := by
  induction b with
  | nil => rfl
  | cons c rest ih =>
    have hc : ¬(c = '\n') := fun he => h (he ▸ List.mem_cons_self c rest)
    have hrest : '\n' ∉ rest := fun hm => h (List.mem_cons_of_mem _ hm)
    simp [firstNlIdx, hc, ih hrest]

theorem firstNlIdx_of_mem {b : GoStr} (h : '\n' ∈ b) :
    firstNlIdx b = some (b.takeWhile (fun c => c != '\n')).length := by
  induction b with
  | nil => cases h
  | cons c rest ih =>
    by_cases hc : c = '\n'
    · subst hc
      simp [firstNlIdx, List.takeWhile_cons_of_neg (by decide : ¬(('\n' != '\n') = true))]
    · have hmem : '\n' ∈ rest := by
        rcases List.mem_cons.mp h with he | hm
        · exact absurd he.symm hc
        · exact hm
      have hpc : (c != '\n') = true := by
        simp [bne, hc]
      simp [firstNlIdx, hc, ih hmem, List.takeWhile_cons_of_pos hpc]

theorem listChar_beq_decide (a b : GoStr) : (a == b) = decide (a = b) := by
  by_cases h : a = b <;> simp [h]

/-- C8: for every input string `s` shorter than 2048 bytes, `bufferize s`
returns a buffer of exactly 2048 bytes whose first `len(s)` bytes are the
bytes of `s` and whose remaining padding bytes are all zero. -/
theorem c8_bufferize_spec (s : GoStr) (h : s.length < 2048) :
    bufferize s = some (s ++ List.replicate (2048 - s.length) (Char.ofNat 0)) ∧
    (s ++ List.replicate (2048 - s.length) (Char.ofNat 0)).length = 2048 ∧
    (s ++ List.replicate (2048 - s.length) (Char.ofNat 0)).take s.length = s ∧
    ∀ c ∈ (s ++ List.replicate (2048 - s.length) (Char.ofNat 0)).drop s.length,
      c = Char.ofNat 0 := by
  refine ⟨?_, ?_, ?_, ?_⟩
  · unfold bufferize IOCTL_IN_OUT_MAX
    rw [if_pos (by omega)]
  · simp only [List.length_append, List.length_replicate]
    omega
  · exact List.take_left _ _
  · intro c hc
    rw [List.drop_left] at hc
    exact List.eq_of_mem_replicate hc

/-- C8 witness: the concrete List request payload `"-"`. -/
theorem c8_bufferize_spec_witness :
    ("-".toList.length < 2048) ∧
    bufferize ("-".toList) =
      some ("-".toList ++ List.replicate (2048 - "-".toList.length) (Char.ofNat 0)) :=
  ⟨by decide, (c8_bufferize_spec ("-".toList) (by decide)).1⟩

/-- C9: the response parser is partial — for every buffer containing a
newline, `parseResponse` succeeds, flags an error exactly when the text
before the first newline equals "ERR", and returns everything after that
newline as the payload; for a buffer with no newline it panics
(out-of-range slice), modelled as `none`. -/
theorem c9_parseResponse_spec (b : GoStr) :
    ('\n' ∈ b →
      parseResponse b =
        some { is_error := decide (b.takeWhile (fun c => c != '\n') = "ERR".toList),
               response := (b.dropWhile (fun c => c != '\n')).tail }) ∧
    ('\n' ∉ b → parseResponse b = none) := by
  constructor
  · intro h
    unfold parseResponse
    rw [firstNlIdx_of_mem h]
    simp only [Option.some.injEq]
    congr 1
    · rw [take_takeWhile_length, listChar_beq_decide]
    · rw [← List.drop_drop, drop_takeWhile_length, List.drop_one]
  · intro h
    unfold parseResponse
    rw [firstNlIdx_of_not_mem h]

/-- C9 witness: the spec's two example buffers and a newline-free buffer. -/
theorem c9_parseResponse_spec_witness :
    parseResponse ("ERR\nbad lease\n".toList) =
      some { is_error := true, response := "bad lease\n".toList } ∧
    parseResponse ("OK\nfoo\n".toList) =
      some { is_error := false, response := "foo\n".toList } ∧
    parseResponse ("no newline here".toList) = none := by
  refine ⟨?_, ?_, ?_⟩
  · rw [(c9_parseResponse_spec ("ERR\nbad lease\n".toList)).1 (by decide)]
    decide
  · rw [(c9_parseResponse_spec ("OK\nfoo\n".toList)).1 (by decide)]
    decide
  · exact (c9_parseResponse_spec ("no newline here".toList)).2 (by decide)

/-- C2: code-bug evidence — `CreatePageBlob` called with `is_vhd = false`
still issues the VHD-header range-write over the last 512 bytes of the
object, and its call sequence is identical to the `is_vhd = true` one
(the argument is never read). -/
theorem c2_header_written_despite_not_vhd :
    createPageBlobOps 1 ("cont".toList) ("blob".toList) false =
      [ .netCreateContainer ("cont".toList),
        .netPutPageBlob ("blob".toList) (2 ^ 30),
        .netWriteRange (2 ^ 30 - 512) 512,
        .netAcquireLease ] ∧
    Ev.netWriteRange (2 ^ 30 - 512) 512 ∈
      createPageBlobOps 1 ("cont".toList) ("blob".toList) false ∧
    createPageBlobOps 1 ("cont".toList) ("blob".toList) false =
      createPageBlobOps 1 ("cont".toList) ("blob".toList) true := by
  refine ⟨by decide, by decide, by decide⟩

/-- C3: code-bug evidence — a descriptor whose accountKey is non-empty,
at most 128 characters, and not valid base64 still passes every field
check: the base64 decode error is computed and discarded, so validation
proceeds (returning the host-defaulted descriptor), not a key error. -/
theorem c3_bad_base64_key_not_rejected :
    base64Valid ("not-base64!!".toList) = false ∧
    ("not-base64!!".toList).length ≠ 0 ∧ ("not-base64!!".toList).length ≤ 128 ∧
    validateFields { dRef with AccountKey := "not-base64!!".toList } =
      .ok { dRef with AccountKey := "not-base64!!".toList,
                      host := "acct.blob.core.windows.net".toList } := by
  refine ⟨by decide, by decide, by decide, by decide⟩

/-- C4 counterexample: a caller-supplied 6-character host (well under the
512 limit) is not kept — validation succeeds but overwrites it with the
derived default endpoint. -/
theorem c4_supplied_host_overwritten :
    ("myhost".toList).length ≤ 512 ∧
    validateFields { dRef with host := "myhost".toList } =
      .ok { dRef with host := "acct.blob.core.windows.net".toList } ∧
    "acct.blob.core.windows.net".toList ≠ "myhost".toList := by
  refine ⟨by decide, by decide, by decide⟩

/-- C4 amended: once the earlier field checks pass, a caller-supplied
host of at most 512 characters is not kept — the default
`accountName + ".blob.core.windows.net"` is derived whenever the host is
not longer than 512 characters (empty or not), and only a supplied host
longer than 512 characters is rejected with an error. -/
theorem c4_host_defaulted_or_rejected (d : Dysk) (hpre : preHostChecksPass d) :
    (d.host.length ≤ 512 →
      validateFields d = .error .badLease ∨
      validateFields d =
        .ok { d with host := d.AccountName ++ ".blob.core.windows.net".toList }) ∧
    (512 < d.host.length → validateFields d = .error .badHost) := by
  obtain ⟨h1, h2, h3, h4, h5, h6, h7⟩ := hpre
  constructor
  · intro hh
    unfold validateFields
    rw [if_neg h1, if_neg h2, if_neg h3, if_neg h4, if_neg h5, if_neg h6, if_neg h7]
    rw [if_neg (by omega : ¬(0 < d.host.length ∧ 512 < d.host.length))]
    by_cases hl : d.LeaseId.length = 0 ∨ 64 < d.LeaseId.length
    · left
      rw [if_pos hl]
    · right
      rw [if_neg hl]
  · intro hh
    unfold validateFields
    rw [if_neg h1, if_neg h2, if_neg h3, if_neg h4, if_neg h5, if_neg h6, if_neg h7]
    rw [if_pos (by omega : 0 < d.host.length ∧ 512 < d.host.length)]

/-- C4 witness: the amended claim evaluated at a short supplied host and
at a 513-character host. -/
theorem c4_host_defaulted_or_rejected_witness :
    (validateFields dHostSupplied = .error .badLease ∨
     validateFields dHostSupplied =
       .ok { dHostSupplied with
             host := dHostSupplied.AccountName ++ ".blob.core.windows.net".toList }) ∧
    validateFields dHostLong = .error .badHost :=
  ⟨(c4_host_defaulted_or_rejected dHostSupplied (by decide)).1 (by decide),
   (c4_host_defaulted_or_rejected dHostLong (by decide)).2 (by decide)⟩

/-- C5 counterexample: on the success payload `"diskA\ndiskB\n\n"` the
List loop drops only the final split segment, so it queries three names
— diskA, diskB and the empty string — not exactly two. -/
theorem c5_three_names_queried :
    listProcessNames ("diskA\ndiskB\n\n".toList) =
      ["diskA".toList, "diskB".toList, []] ∧
    listCalls getAllOk (listProcessNames ("diskA\ndiskB\n\n".toList)) =
      ["diskA".toList, "diskB".toList, []] ∧
    listCalls getAllOk (listProcessNames ("diskA\ndiskB\n\n".toList)) ≠
      ["diskA".toList, "diskB".toList] := by
  refine ⟨by decide, by decide, by decide⟩

theorem listAccum_first_error (get : GoStr → Except GoStr Dysk) (e : GoStr)
    (n : GoStr) (rest : List GoStr) :
    ∀ pre : List GoStr, (∀ m ∈ pre, ∃ dm, get m = .ok dm) → get n = .error e →
      listAccum get (pre ++ n :: rest) = .error e := by
  intro pre
  induction pre with
  | nil =>
    intro _ hfail
    simp only [List.nil_append]
    unfold listAccum
    rw [hfail]
  | cons m pre ih =>
    intro hok hfail
    obtain ⟨dm, hdm⟩ := hok m (List.mem_cons_self m pre)
    have ih2 := ih (fun x hx => hok x (List.mem_cons_of_mem _ hx)) hfail
    simp only [List.cons_append, listAccum, List.append_eq]
    rw [hdm, ih2]

theorem listCalls_first_error (get : GoStr → Except GoStr Dysk) (e : GoStr)
    (n : GoStr) (rest : List GoStr) :
    ∀ pre : List GoStr, (∀ m ∈ pre, ∃ dm, get m = .ok dm) → get n = .error e →
      listCalls get (pre ++ n :: rest) = pre ++ [n] := by
  intro pre
  induction pre with
  | nil =>
    intro _ hfail
    simp only [List.nil_append]
    unfold listCalls
    rw [hfail]
  | cons m pre ih =>
    intro hok hfail
    obtain ⟨dm, hdm⟩ := hok m (List.mem_cons_self m pre)
    have ih2 := ih (fun x hx => hok x (List.mem_cons_of_mem _ hx)) hfail
    simp only [List.cons_append, listCalls, List.append_eq]
    rw [hdm, ih2]

/-- C5 amended: the payload `"diskA\ndiskB\n\n"` yields the three names
diskA, diskB, "" in order (only the single final trailing segment is
discarded); the payload `"diskA\ndiskB\n"` yields exactly diskA then
diskB; and for a failure at any position — every name before it querying
successfully and the Get of name `n` failing with `e` — the whole List
aborts with that error, no partial result is returned, and exactly the
names through the first failure are queried, in order. -/
theorem c5_list_names_and_abort (get : GoStr → Except GoStr Dysk) (e : GoStr)
    (pre : List GoStr) (n : GoStr) (rest : List GoStr)
    (hok : ∀ m ∈ pre, ∃ dm, get m = .ok dm) (hfail : get n = .error e) :
    listProcessNames ("diskA\ndiskB\n\n".toList) =
      ["diskA".toList, "diskB".toList, []] ∧
    listProcessNames ("diskA\ndiskB\n".toList) = ["diskA".toList, "diskB".toList] ∧
    listAccum get (pre ++ n :: rest) = .error e ∧
    listCalls get (pre ++ n :: rest) = pre ++ [n] :=
  ⟨by decide, by decide,
   listAccum_first_error get e n rest pre hok hfail,
   listCalls_first_error get e n rest pre hok hfail⟩

/-- C5 witness: a Get oracle whose first failure is on the second name
(diskA succeeds, diskB fails) aborts the two-name list with that error
after querying diskA then diskB. -/
theorem c5_list_names_and_abort_witness :
    listAccum getFailsOnB ["diskA".toList, "diskB".toList] = .error ("boom".toList) ∧
    listCalls getFailsOnB ["diskA".toList, "diskB".toList] =
      ["diskA".toList, "diskB".toList] :=
  ⟨(c5_list_names_and_abort getFailsOnB ("boom".toList) ["diskA".toList]
      ("diskB".toList) []
      (by
        intro m hm
        simp only [List.mem_singleton] at hm
        subst hm
        exact ⟨dRef, by decide⟩)
      (by decide)).2.2.1,
   (c5_list_names_and_abort getFailsOnB ("boom".toList) ["diskA".toList]
      ("diskB".toList) []
      (by
        intro m hm
        simp only [List.mem_singleton] at hm
        subst hm
        exact ⟨dRef, by decide⟩)
      (by decide)).2.2.2⟩

/-- C6 counterexample: mounting a descriptor with an invalid name returns
the descriptive validation error, but only after the control channel has
been opened and the size-fetch GetProperties network call has been issued
— the trace before the error return is not free of channel and network
operations. -/
theorem c6_network_precedes_validation :
    MountM envRef dBadName =
      ([Ev.openChannel, Ev.netGetProps, Ev.closeChannel],
        .errValidation .badNameChars) ∧
    Ev.openChannel ∈ (MountM envRef dBadName).1 ∧
    Ev.netGetProps ∈ (MountM envRef dBadName).1 := by
  refine ⟨by decide, by decide, by decide⟩

/-- C6 amended: whenever the enriched descriptor violates a field-level
invariant, Mount returns exactly that validation error and the trace is
open-channel, the size-fetch network call, close-channel — in particular
the mount command is never issued and no lease-validation store call is
made, though the channel open and one store call do precede the error. -/
theorem c6_validation_before_mount_command (env : ClientEnv) (d : Dysk) (e : ValErr)
    (h : validateFields (mountEnrich env d) = .error e) :
    MountM env d = ([Ev.openChannel, Ev.netGetProps, Ev.closeChannel],
      .errValidation e) ∧
    Ev.ioctl IOCTLMOUNTDYSK ∉ [Ev.openChannel, Ev.netGetProps, Ev.closeChannel] ∧
    Ev.netLease ∉ [Ev.openChannel, Ev.netGetProps, Ev.closeChannel] := by
  refine ⟨?_, by decide, by decide⟩
  unfold MountM validateDyskM
  simp only [h]
  rfl

/-- C6 witness: the amended claim at the bad-name descriptor. -/
theorem c6_validation_before_mount_command_witness :
    MountM envRef dBadName =
      ([Ev.openChannel, Ev.netGetProps, Ev.closeChannel],
        .errValidation .badNameChars) :=
  (c6_validation_before_mount_command envRef dBadName .badNameChars (by decide)).1

/-- C1 counterexample: even for a descriptor within bounds with
newline-free fields, decoding the encoding fails — the encoder emits ten
fields while the decoder expects major and minor before the vhd flag, so
it hits a fatal parse error on the empty trailing segment. -/
theorem c1_roundtrip_fails :
    inLenBounds dRef ∧ wireSafe dRef ∧
    string2dysk (dysk2string dRef) = .errParse := by
  refine ⟨by decide, by decide, by decide⟩

/-- C1 amended: the decoder inverts the response-format encoding — the
request fields with the driver-assigned major/minor inserted before the
vhd flag. For every descriptor within the declared length bounds whose
fields are newline-free (and machine fields in range), decoding that
layout returns the descriptor exactly, except `SizeGB`, which is not
wire-carried and decodes to the zero value. -/
theorem c1_roundtrip_response_format (d : Dysk) (hb : inLenBounds d) (hw : wireSafe d) :
    string2dysk (dysk2stringFull d) = .ok { d with SizeGB := 0 } := by
  obtain ⟨ht, hn, han, hak, hp, hh, hi, hl, hsc, hmaj1, hmaj2, hmin1, hmin2⟩ := hw
  have hvhd : '\n' ∉ (if d.Vhd then ['1'] else ['0']) := by
    cases d.Vhd <;> decide
  have hfields : ∀ f ∈ [d.type, d.Name, natToDec d.sectorCount, d.AccountName,
      d.AccountKey, d.Path, d.host, d.ip, d.LeaseId, intToDec d.Major,
      intToDec d.Minor, if d.Vhd then ['1'] else ['0']], '\n' ∉ f := by
    intro f hf
    simp only [List.mem_cons, List.not_mem_nil, or_false] at hf
    rcases hf with rfl | rfl | rfl | rfl | rfl | rfl | rfl | rfl | rfl | rfl | rfl | rfl
    exacts [ht, hn, not_nl_natToDec _, han, hak, hp, hh, hi, hl,
      not_nl_intToDec _, not_nl_intToDec _, hvhd]
  have hsplit : splitOnNl (dysk2stringFull d) =
      [d.type, d.Name, natToDec d.sectorCount, d.AccountName, d.AccountKey,
       d.Path, d.host, d.ip, d.LeaseId, intToDec d.Major, intToDec d.Minor,
       (if d.Vhd then ['1'] else ['0']), []] := by
    unfold dysk2stringFull
    rw [splitOnNl_joinNl _ hfields]
    simp
  simp only [string2dysk, hsplit, List.length_cons, List.length_nil,
    List.get_eq_getElem, List.getElem_cons_succ, List.getElem_cons_zero,
    goParseUint_natToDec hsc, goParseInt_intToDec hmaj1 hmaj2,
    goParseInt_intToDec hmin1 hmin2]
  norm_num
  cases d.Vhd <;> decide

/-- C1 witness: the amended round-trip at the reference descriptor. -/
theorem c1_roundtrip_response_format_witness :
    string2dysk (dysk2stringFull dRef) = .ok { dRef with SizeGB := 0 } :=
  c1_roundtrip_response_format dRef (by decide) (by decide)

theorem getD_of_lt {l : List GoStr} {i : Nat} (h : i < l.length) :
    l.getD i [] = l.get ⟨i, h⟩ := by
  simp [List.getD_eq_getElem?_getD, List.getElem?_eq_getElem h, List.get_eq_getElem]

/-- C10 counterexample: a payload with ten newline-separated segments
whose tenth segment is not an integer makes `string2dysk` return the
major-field parse error — it does not panic, although the segment count
is below twelve. -/
theorem c10_ten_segments_no_panic :
    (splitOnNl ("a\nb\nc\nd\ne\nf\ng\nh\ni\nj".toList)).length = 10 ∧
    (splitOnNl ("a\nb\nc\nd\ne\nf\ng\nh\ni\nj".toList)).length < 12 ∧
    string2dysk ("a\nb\nc\nd\ne\nf\ng\nh\ni\nj".toList) ≠ .panics ∧
    string2dysk ("a\nb\nc\nd\ne\nf\ng\nh\ni\nj".toList) = .errParse := by
  refine ⟨by decide, by decide, by decide, by decide⟩

/-- C10 amended: `string2dysk` panics exactly when an index access is
reached that is out of range — always for fewer than ten segments; for
exactly ten (resp. eleven) segments precisely when the major field at
index 9 (resp. also the minor field at index 10) parses as an integer,
since a failed parse returns the error first; never for twelve or more
segments. -/
theorem c10_panic_characterization (s : GoStr) :
    string2dysk s = .panics ↔
      ((splitOnNl s).length < 10 ∨
       ((splitOnNl s).length = 10 ∧
         (goParseInt ((splitOnNl s).getD 9 [])).2 = true) ∨
       ((splitOnNl s).length = 11 ∧
         (goParseInt ((splitOnNl s).getD 9 [])).2 = true ∧
         (goParseInt ((splitOnNl s).getD 10 [])).2 = true)) := by
  simp only [string2dysk]
  split_ifs with h2 h9 hmaj h10 hmin h11
  · -- all indices in range: decodes to ok, never a panic
    constructor
    · intro hcontra
      exact absurd hcontra (by simp)
    · rintro (hx | ⟨hx, _⟩ | ⟨hx, _, _⟩) <;> omega
  · -- 11 segments with major and minor parsing: panics at index 11
    constructor
    · intro _
      right; right
      refine ⟨by omega, ?_, ?_⟩
      · rw [getD_of_lt h9]; exact hmaj
      · rw [getD_of_lt h10]; exact hmin
    · intro _; rfl
  · -- minor fails to parse: the parse error is returned, no panic
    constructor
    · intro hcontra
      exact absurd hcontra (by simp)
    · rintro (hx | ⟨hx, _⟩ | ⟨hx, _, hmin2⟩)
      · omega
      · omega
      · rw [getD_of_lt h10] at hmin2
        exact absurd hmin2 hmin
  · -- 10 segments with major parsing: panics at index 10
    constructor
    · intro _
      right; left
      refine ⟨by omega, ?_⟩
      rw [getD_of_lt h9]; exact hmaj
    · intro _; rfl
  · -- major fails to parse: the parse error is returned, no panic
    constructor
    · intro hcontra
      exact absurd hcontra (by simp)
    · rintro (hx | ⟨hx, hmaj2⟩ | ⟨hx, hmaj2, _⟩)
      · omega
      · rw [getD_of_lt h9] at hmaj2
        exact absurd hmaj2 hmaj
      · rw [getD_of_lt h9] at hmaj2
        exact absurd hmaj2 hmaj
  · -- fewer than ten segments: panics at index 9 (or 2)
    constructor
    · intro _
      left; omega
    · intro _; rfl
  · -- fewer than three segments: panics at index 2
    constructor
    · intro _
      left; omega
    · intro _; rfl

/-- C7 counterexample: at `SizeGB = 2^34` (whose byte size minus the
header is still a whole number of sectors) the 64-bit arithmetic wraps,
and the reconciliation returns 0 instead of the original size. -/
theorem c7_size_reconciliation_overflow :
    ({ dRef with Vhd := true, SizeGB := 2 ^ 34 } : Dysk).Vhd = true ∧
    (512 : Int) ∣ (({ dRef with Vhd := true, SizeGB := 2 ^ 34 } : Dysk).SizeGB *
      (1024 * 1024 * 1024) - (VHD_HEADER_SIZE : Int)) ∧
    (post_get (pre_mount_sizing { dRef with Vhd := true, SizeGB := 2 ^ 34 })).SizeGB
      = 0 ∧
    (0 : Int) ≠ ({ dRef with Vhd := true, SizeGB := 2 ^ 34 } : Dysk).SizeGB := by
  refine ⟨by decide, ⟨2 ^ 55 - 1, by norm_num [VHD_HEADER_SIZE]⟩, by decide, by decide⟩

/-- C7 amended: for every image-format descriptor whose size in bytes,
after subtracting the header, is a whole number of 512-byte sectors, and
whose byte size fits in 64 bits (`0 ≤ sizeGB < 2^34`), the pre-mount
sector computation followed by the post-get recomputation returns the
original `sizeGB`. -/
theorem c7_size_reconciliation_bounded (d : Dysk) (hvhd : d.Vhd = true)
    (h0 : 0 ≤ d.SizeGB) (h1 : d.SizeGB < 2 ^ 34)
    (hdvd : (512 : Int) ∣
      (d.SizeGB * (1024 * 1024 * 1024) - (VHD_HEADER_SIZE : Int))) :
    (post_get (pre_mount_sizing d)).SizeGB = d.SizeGB := by
  simp only [pre_mount_sizing, post_get, toUint64, toInt64, VHD_HEADER_SIZE, hvhd,
    eq_self_iff_true, if_true, Nat.cast_ofNat]
  have hdvd' : (512 : Int) ∣ (d.SizeGB * (1024 * 1024 * 1024) - 512) := by
    have h5 : ((VHD_HEADER_SIZE : Nat) : Int) = 512 := rfl
    rw [h5] at hdvd
    exact hdvd
  have hws := wrap64_emod (d.SizeGB * (1024 * 1024 * 1024))
  have hwr := wrap64_bounds (d.SizeGB * (1024 * 1024 * 1024))
  generalize hb1 : wrap64 (d.SizeGB * (1024 * 1024 * 1024)) = b1 at hws hwr ⊢
  have hws2 := wrap64_emod (b1 - 512)
  have hwr2 := wrap64_bounds (b1 - 512)
  generalize hb2 : wrap64 (b1 - 512) = b2 at hws2 hwr2 ⊢
  have hdvd2 : (512 : Int) ∣ b2 := by
    rcases hdvd' with ⟨k, hk⟩
    omega
  have hq : Int.tdiv b2 512 * 512 = b2 :=
    tdiv_mul_cancel_of_dvd (by norm_num) hdvd2
  generalize hqg : Int.tdiv b2 512 = q at hq ⊢
  unfold wrap64
  omega

/-- C7 witness: the reconciliation at a 1 GB image-format descriptor. -/
theorem c7_size_reconciliation_bounded_witness :
    (post_get (pre_mount_sizing { dRef with Vhd := true, SizeGB := 1 })).SizeGB = 1 :=
  c7_size_reconciliation_bounded { dRef with Vhd := true, SizeGB := 1 }
    (by decide) (by decide) (by decide)
    ⟨2 ^ 21 - 1, by norm_num [VHD_HEADER_SIZE, dRef]⟩
